import Mathlib

/-!
Shallow embedding of `src/met_professional.py` (Iranian-pottery dataset
downloader) and verification of the specification's claims about it.

Strings are modelled as `List Char`; fields that Python reads with
`dict.get` and a default are modelled as `Option` values.  Randomness
(`random.choice`, `random.sample`) is modelled by explicit draw streams
and by quantification over samplers satisfying the contract of
`random.sample`.  Network I/O is modelled by an oracle giving the outcome
of each HTTP request.
-/

namespace Met

abbrev Str := List Char

/-- Characters matched by Python's `\s` regex class and stripped by
`str.strip` (ASCII fragment, which is what the repository's data uses). -/
def isPySpace (c : Char) : Bool :=
  c = ' ' || c = '\t' || c = '\n' || c = '\x0b' || c = '\x0c' || c = '\r'

/-- String literal helper. -/
def lit (s : String) : Str := s.toList

/-- `re.sub(r'\s+', ' ', text)` (line 53): every maximal run of whitespace
characters becomes a single `' '`. -/
def collapseWS : Str → Str
  | [] => []
  | c :: rest =>
    match rest with
    | [] => if isPySpace c then [' '] else [c]
    | c' :: _ =>
      if isPySpace c then
        if isPySpace c' then collapseWS rest
        else ' ' :: collapseWS rest
      else c :: collapseWS rest

/-- Python `str.lstrip()` restricted to whitespace. -/
def lstrip (s : Str) : Str := s.dropWhile isPySpace

/-- Python `str.rstrip()` restricted to whitespace. -/
def rstrip (s : Str) : Str := (s.reverse.dropWhile isPySpace).reverse

/-- Python `str.strip()`. -/
def pyStrip (s : Str) : Str := rstrip (lstrip s)

/-- `normalize_text` (lines 49-54): falsy input gives `""`; otherwise
collapse whitespace runs, strip, and truncate to 500 characters. -/
def normalize_text (s : Str) : Str :=
  if s = [] then [] else (pyStrip (collapseWS s)).take 500

/-- Python `str.lower()` on ASCII. -/
def lowerStr (s : Str) : Str := s.map Char.toLower

/-- `CONFIG['historical_periods']['pre_islamic']` (lines 18-23). -/
def pre_islamic_keywords : List Str :=
  [lit "Silk", lit "Elam", lit "Achaemenid", lit "Parthian", lit "Sassanian",
   lit "Chogha Zanbil", lit "Tappeh Sialk", lit "Haft Tepe",
   lit "Kuh-e Khwaja", lit "Arg-e Bam", lit "Persepolis", lit "Ancient Iran",
   lit "Zagros", lit "Luristan"]

/-- `CONFIG['historical_periods']['islamic']` (lines 24-27). -/
def islamic_keywords : List Str :=
  [lit "Islamic", lit "Ilkhanid", lit "Timurid", lit "Safavid", lit "Qajar",
   lit "Ottoman", lit "Seljuk", lit "Mongol", lit "Abbasid", lit "Umayyad"]

/-- `CONFIG['user_agents']` (lines 36-40). -/
def user_agents : List Str :=
  [lit "Mozilla/5.0 (Windows NT 10.0; Win64; x64) AppleWebKit/537.36 (KHTML, like Gecko) Chrome/91.0.4472.124 Safari/537.36",
   lit "Mozilla/5.0 (Macintosh; Intel Mac OS X 10_15_7) AppleWebKit/605.1.15 (KHTML, like Gecko) Version/14.1.1 Safari/605.1.15",
   lit "Mozilla/5.0 (X11; Linux x86_64) AppleWebKit/537.36 (KHTML, like Gecko) Chrome/92.0.4515.107 Safari/537.36"]

/-- `CONFIG['retries']` (line 15). -/
def retries : Nat := 4

/-- The `10 * 1024` minimum image size of line 91. -/
def min_image_bytes : Nat := 10 * 1024

/-- A raw object record as returned by the `/objects/{id}` endpoint; a
missing key is `none` (Python `dict.get` returns the supplied default). -/
structure ObjData where
  title : Option Str := none
  culture : Option Str := none
  period : Option Str := none
  objectDate : Option Str := none
  objectName : Option Str := none
  classification : Option Str := none
  medium : Option Str := none
  dimensions : Option Str := none
  creditLine : Option Str := none
  country : Option Str := none
  region : Option Str := none
  tags : Option (List Str) := none
  isPublicDomain : Option Bool := none
  primaryImage : Option Str := none
deriving DecidableEq

/-- The loop condition of lines 69 and 73: the lower-cased keyword occurs
as a substring of one of the four lower-cased fields. -/
def kwHit (r : ObjData) (kw : Str) : Bool :=
  let title := lowerStr (r.title.getD [])
  let culture := lowerStr (r.culture.getD [])
  let period := lowerStr (r.period.getD [])
  let object_date := lowerStr (r.objectDate.getD [])
  let k := lowerStr kw
  decide (k <:+: title) || decide (k <:+: culture) ||
    decide (k <:+: period) || decide (k <:+: object_date)

/-- `any(x in object_date for x in xs)` of lines 76 and 78. -/
def dateHasAny (r : ObjData) (xs : List Str) : Bool :=
  xs.any fun x => decide (x <:+: lowerStr (r.objectDate.getD []))

/-- `detect_historical_period` (lines 57-80). -/
def detect_historical_period (r : ObjData) : Str × Str :=
  match pre_islamic_keywords.find? (kwHit r) with
  | some kw => (lit "pre_islamic", kw)
  | none =>
    match islamic_keywords.find? (kwHit r) with
    | some kw => (lit "islamic", kw)
    | none =>
      if dateHasAny r [lit "bc", lit "b.c.", lit "before christ"] then
        (lit "pre_islamic", lit "Ancient Iran")
      else if dateHasAny r [lit "islamic", lit "ad", lit "a.d.", lit "hijri", lit "ah"] then
        (lit "islamic", lit "Islamic Period")
      else
        (lit "unknown", lit "Unknown")

/-- Outcome of one `requests.get` for an image: either an exception
(transport error) or a response carrying a status (`okStatus = true` means
`raise_for_status` does not raise) and a byte payload. -/
inductive NetOutcome where
  | exn : NetOutcome
  | resp (okStatus : Bool) (content : List Nat) : NetOutcome
deriving DecidableEq

/-- `get_random_user_agent` (lines 44-46): `random.choice` consumes one
draw from the stream `rand` (position `rk`) and indexes the agent list. -/
def get_random_user_agent (rand : Nat → Nat) (rk : Nat) : Str × Nat :=
  (user_agents.getD (rand rk % user_agents.length) [], rk + 1)

/-- The retry loop of `download_image` (lines 86-98).  `net i hd` is the
outcome of the request issued on attempt `i` with header `hd`; `fs` is the
content stored at the destination path (`none` if no file exists).
Returns (result, final filesystem state, headers sent, one per attempt). -/
def dl_loop (net : Nat → Str → NetOutcome) (headers : Str)
    (fs : Option (List Nat)) : Nat → Nat → Bool × Option (List Nat) × List Str
  | _, 0 => (false, fs, [])
  | i, r + 1 =>
    match net i headers with
    | .exn =>
      let rest := dl_loop net headers fs (i + 1) r
      (rest.1, rest.2.1, headers :: rest.2.2)
    | .resp ok content =>
      if ok then
        if content.length < min_image_bytes then
          let rest := dl_loop net headers fs (i + 1) r
          (rest.1, rest.2.1, headers :: rest.2.2)
        else
          (true, some content, [headers])
      else
        let rest := dl_loop net headers fs (i + 1) r
        (rest.1, rest.2.1, headers :: rest.2.2)

/-- `download_image` (lines 83-98): the header dictionary is built once,
on line 85, before the retry loop.  Returns (result, filesystem state,
next RNG position, headers sent per attempt). -/
def download_image (net : Nat → Str → NetOutcome) (rand : Nat → Nat)
    (rk : Nat) (fs : Option (List Nat)) :
    Bool × Option (List Nat) × Nat × List Str :=
  let ua := get_random_user_agent rand rk
  let run := dl_loop net ua.1 fs 0 retries
  (run.1, run.2.1, ua.2, run.2.2)

/-- An attempt of the retry loop fails if the request raises, the status
is an error, or the payload is under the 10 KiB threshold. -/
def attemptFails : NetOutcome → Bool
  | .exn => true
  | .resp ok content => !ok || decide (content.length < min_image_bytes)

/-- The contract of `random.sample(ids, k)` for `k ≤ len(ids)`: a sample
of exactly `k` positions without replacement, so `k` elements, all from
the population, with no duplicates when the population has none. -/
def SampleFnSpec (f : List Nat → Nat → List Nat) : Prop :=
  ∀ l k, k ≤ l.length →
    (f l k).length = k ∧ (∀ x ∈ f l k, x ∈ l) ∧ (l.Nodup → (f l k).Nodup)

/-- A concrete sampler satisfying `SampleFnSpec`, used to instantiate the
theorems below on concrete inputs. -/
def take_sample (l : List Nat) (k : Nat) : List Nat := l.take k

/-- The per-group branch of the sampling loop (lines 170-176). -/
def select_from_group (f : List Nat → Nat → List Nat) (target : Nat)
    (ids : List Nat) : List Nat :=
  if ids = [] then []
  else if ids.length ≤ target then ids
  else f ids target

/-- Lines 166-178 of `download_iran_pottery`: the group map is an
insertion-ordered association list.  `min` of an empty sequence raises
`ValueError` in Python, modelled by `none`. -/
def sample_groups (f : List Nat → Nat → List Nat)
    (groups : List (Str × List Nat)) (maxImages : Nat) : Option (List Nat) :=
  match (groups.filterMap fun g => if g.2 = [] then none else some g.2.length).min? with
  | none => none
  | some min_count =>
    let target := max 1 (min min_count (maxImages / groups.length))
    some (((groups.map fun g => select_from_group f target g.2).flatten).take maxImages)

/-- Error vocabulary of `process_pottery_object`: `ValueError` on line 211
(no primary image) and `ConnectionError` on line 222 (download failed). -/
inductive ProcError where
  | noImage : ProcError
  | downloadFailed : ProcError
deriving DecidableEq

/-- The metadata record assembled on lines 225-245. -/
structure MetadataRecord where
  objectID : Nat
  title : Str
  culture : Str
  period : Str
  objectDate : Str
  objectName : Str
  classification : Str
  medium : Str
  dimensions : Str
  creditLine : Str
  country : Str
  region : Str
  tags : Str
  isPublicDomain : Bool
  primaryImage : Option Str
  era_classification : Str
  historical_period : Str
  local_path : Str
  source : Str
deriving DecidableEq

/-- `', '.join(xs)`. -/
def joinComma (l : List Str) : Str := List.intercalate (lit ", ") l

/-- `pname.replace(' ', '_')` of line 215. -/
def underscored (s : Str) : Str := s.map fun c => if c = ' ' then '_' else c

/-- Decimal rendering of an object ID. -/
def natStr (n : Nat) : Str := (toString n).toList

/-- The destination image path `images/<era>/<subperiod>/<objectID>.jpg`
computed on lines 213-220. -/
def image_path (image_dir : Str) (obj_id : Nat) (data : ObjData) : Str :=
  let ep := detect_historical_period data
  image_dir ++ lit "/" ++ ep.1 ++ lit "/" ++ underscored ep.2 ++
    lit "/" ++ natStr obj_id ++ lit ".jpg"

/-- The metadata record returned on lines 225-245. -/
def build_record (obj_id : Nat) (image_dir : Str) (data : ObjData) :
    MetadataRecord :=
  { objectID := obj_id
    title := normalize_text (data.title.getD [])
    culture := normalize_text (data.culture.getD [])
    period := normalize_text (data.period.getD [])
    objectDate := normalize_text (data.objectDate.getD [])
    objectName := normalize_text (data.objectName.getD [])
    classification := normalize_text (data.classification.getD [])
    medium := normalize_text (data.medium.getD [])
    dimensions := normalize_text (data.dimensions.getD [])
    creditLine := normalize_text (data.creditLine.getD [])
    country := normalize_text (data.country.getD [])
    region := normalize_text (data.region.getD [])
    tags := joinComma (data.tags.getD [])
    isPublicDomain := data.isPublicDomain.getD false
    primaryImage := data.primaryImage
    era_classification := (detect_historical_period data).1
    historical_period := (detect_historical_period data).2
    local_path := image_path image_dir obj_id data
    source := lit "MET" }

/-- `process_pottery_object` (lines 202-245), given the already-fetched
object data.  `dl url path` is the boolean result of `download_image`. -/
def process_pottery_object (dl : Str → Str → Bool) (obj_id : Nat)
    (image_dir : Str) (data : ObjData) : Except ProcError MetadataRecord :=
  if data.primaryImage.getD [] = [] then .error .noImage
  else if dl (data.primaryImage.getD []) (image_path image_dir obj_id data) then
    .ok (build_record obj_id image_dir data)
  else .error .downloadFailed

/-- Phases 3-4 of the pipeline after grouping: sampling, then processing
each sampled ID (`proc` returns `none` when the worker caught an error),
then the record list handed to `save_metadata`.  `none` models the
uncaught `ValueError` from `min` of an empty sequence on line 166, which
aborts the run before any metadata is written. -/
def pipeline_from_groups (f : List Nat → Nat → List Nat)
    (proc : Nat → Option MetadataRecord) (groups : List (Str × List Nat))
    (maxImages : Nat) : Option (List MetadataRecord) :=
  (sample_groups f groups maxImages).map fun sampled => sampled.filterMap proc

/-! ## Generic list lemmas -/

theorem find?_of_min_index {α : Type} (p : α → Bool) (d : α) :
    ∀ (l : List α) (i : Nat), i < l.length → p (l.getD i d) = true →
    (∀ j, j < i → p (l.getD j d) = false) →
    l.find? p = some (l.getD i d) := by
  intro l
  induction l with
  | nil => intro i hi; simp at hi
  | cons a t ih =>
    intro i hi hp hmin
    cases i with
    | zero =>
      simp only [List.getD_cons_zero] at hp ⊢
      simp [List.find?_cons_of_pos, hp]
    | succ i =>
      have ha : p a = false := by
        have := hmin 0 (Nat.succ_pos i)
        simpa using this
      have hrec := ih i (by simpa using hi) (by simpa using hp)
        (fun j hj => by simpa using hmin (j + 1) (Nat.succ_lt_succ hj))
      simp only [List.getD_cons_succ]
      rw [List.find?_cons_of_neg _ (by simp [ha]), hrec]

theorem find?_first_index {α : Type} (p : α → Bool) (d : α) :
    ∀ (l : List α) (i : Nat), i < l.length → p (l.getD i d) = true →
    ∃ k, k ≤ i ∧ k < l.length ∧ p (l.getD k d) = true ∧
      (∀ m, m < k → p (l.getD m d) = false) ∧ l.find? p = some (l.getD k d) := by
  intro l
  induction l with
  | nil => intro i hi; simp at hi
  | cons a t ih =>
    intro i hi hp
    by_cases ha : p a = true
    · exact ⟨0, Nat.zero_le i, Nat.succ_pos _, by simpa using ha,
        fun m hm => absurd hm (Nat.not_lt_zero m),
        by simp [List.find?_cons_of_pos, ha]⟩
    · have ha' : p a = false := by simpa using ha
      cases i with
      | zero => simp only [List.getD_cons_zero] at hp; exact absurd hp ha
      | succ i =>
        obtain ⟨k, hk1, hk2, hk3, hk4, hk5⟩ :=
          ih i (by simpa using hi) (by simpa using hp)
        refine ⟨k + 1, Nat.succ_le_succ hk1, Nat.succ_lt_succ hk2, by simpa using hk3,
          ?_, ?_⟩
        · intro m hm
          cases m with
          | zero => simpa using ha'
          | succ m => simpa using hk4 m (Nat.lt_of_succ_lt_succ hm)
        · simp only [List.getD_cons_succ]
          rw [List.find?_cons_of_neg _ (by simp [ha']), hk5]

/-! ## C2: the classifier algorithm -/

/-- C2: the classifier lower-cases the four fields and scans the
pre-Islamic keyword list in order, returning `(pre_islamic, kw)` for the
first keyword occurring as a substring of one of the fields; failing
that it scans the Islamic list identically; failing that it applies the
date heuristics for "bc"/"b.c."/"before christ" (giving
`(pre_islamic, "Ancient Iran")`, e.g. on `objectDate = "400 BC"`) and for
"islamic"/"ad"/"a.d."/"hijri"/"ah" (giving `(islamic, "Islamic Period")`),
and otherwise returns `(unknown, "Unknown")`, in particular on a record
whose four fields are all empty. -/
theorem detect_historical_period_spec (r : ObjData) :
    (∀ i, i < pre_islamic_keywords.length →
      kwHit r (pre_islamic_keywords.getD i []) = true →
      (∀ j, j < i → kwHit r (pre_islamic_keywords.getD j []) = false) →
      detect_historical_period r = (lit "pre_islamic", pre_islamic_keywords.getD i [])) ∧
    ((∀ kw ∈ pre_islamic_keywords, kwHit r kw = false) →
      ∀ i, i < islamic_keywords.length →
      kwHit r (islamic_keywords.getD i []) = true →
      (∀ j, j < i → kwHit r (islamic_keywords.getD j []) = false) →
      detect_historical_period r = (lit "islamic", islamic_keywords.getD i [])) ∧
    ((∀ kw ∈ pre_islamic_keywords, kwHit r kw = false) →
      (∀ kw ∈ islamic_keywords, kwHit r kw = false) →
      (dateHasAny r [lit "bc", lit "b.c.", lit "before christ"] = true →
        detect_historical_period r = (lit "pre_islamic", lit "Ancient Iran")) ∧
      (dateHasAny r [lit "bc", lit "b.c.", lit "before christ"] = false →
        dateHasAny r [lit "islamic", lit "ad", lit "a.d.", lit "hijri", lit "ah"] = true →
        detect_historical_period r = (lit "islamic", lit "Islamic Period")) ∧
      (dateHasAny r [lit "bc", lit "b.c.", lit "before christ"] = false →
        dateHasAny r [lit "islamic", lit "ad", lit "a.d.", lit "hijri", lit "ah"] = false →
        detect_historical_period r = (lit "unknown", lit "Unknown"))) ∧
    detect_historical_period
      { title := some [], culture := some [], period := some [],
        objectDate := some (lit "400 BC") } = (lit "pre_islamic", lit "Ancient Iran") ∧
    detect_historical_period
      { title := some [], culture := some [], period := some [],
        objectDate := some [] } = (lit "unknown", lit "Unknown") := by
  refine ⟨?_, ?_, ?_, by decide, by decide⟩
  · intro i hi hp hmin
    unfold detect_historical_period
    rw [find?_of_min_index (kwHit r) [] _ i hi hp hmin]
  · intro hpre i hi hp hmin
    unfold detect_historical_period
    rw [List.find?_eq_none.mpr (fun x hx => by simp [hpre x hx]),
      find?_of_min_index (kwHit r) [] _ i hi hp hmin]
  · intro hpre hisl
    unfold detect_historical_period
    rw [List.find?_eq_none.mpr (fun x hx => by simp [hpre x hx]),
      List.find?_eq_none.mpr (fun x hx => by simp [hisl x hx])]
    refine ⟨fun hbc => ?_, fun hbc had => ?_, fun hbc had => ?_⟩
    · simp [hbc]
    · simp [hbc, had]
    · simp [hbc, had]

/-- C2 witness: a record whose `culture` field contains only the keyword
"Achaemenid" (index 2 of the pre-Islamic list, with "Silk" and "Elam"
not matching) classifies as `(pre_islamic, "Achaemenid")`. -/
theorem detect_historical_period_spec_witness :
    detect_historical_period { culture := some (lit "Achaemenid pottery") } =
      (lit "pre_islamic", pre_islamic_keywords.getD 2 []) :=
  (detect_historical_period_spec { culture := some (lit "Achaemenid pottery") }).1
    2 (by decide) (by decide) (by decide)

/-! ## C7: keyword precedence -/

/-- C7: when two keywords of the same list both occur in a record's
fields, the classifier's result is the first matching keyword of that
list, whose index is at most the index of either match; and any
pre-Islamic match forces era `pre_islamic`, so the pre-Islamic list is
exhausted before any Islamic keyword can decide the result.  A title
containing both "Safavid" and "Qajar" yields "Safavid", which is listed
first in the Islamic table. -/
theorem detect_keyword_precedence (r : ObjData) :
    (∀ i j, i < j → j < islamic_keywords.length →
      (∀ kw ∈ pre_islamic_keywords, kwHit r kw = false) →
      kwHit r (islamic_keywords.getD i []) = true →
      kwHit r (islamic_keywords.getD j []) = true →
      ∃ k, k ≤ i ∧ kwHit r (islamic_keywords.getD k []) = true ∧
        (∀ m, m < k → kwHit r (islamic_keywords.getD m []) = false) ∧
        detect_historical_period r = (lit "islamic", islamic_keywords.getD k [])) ∧
    (∀ i j, i < j → j < pre_islamic_keywords.length →
      kwHit r (pre_islamic_keywords.getD i []) = true →
      kwHit r (pre_islamic_keywords.getD j []) = true →
      ∃ k, k ≤ i ∧ kwHit r (pre_islamic_keywords.getD k []) = true ∧
        (∀ m, m < k → kwHit r (pre_islamic_keywords.getD m []) = false) ∧
        detect_historical_period r = (lit "pre_islamic", pre_islamic_keywords.getD k [])) ∧
    (∀ i, i < pre_islamic_keywords.length →
      kwHit r (pre_islamic_keywords.getD i []) = true →
      (detect_historical_period r).1 = lit "pre_islamic") ∧
    detect_historical_period { title := some (lit "Safavid Qajar bowl") } =
      (lit "islamic", lit "Safavid") := by
  refine ⟨?_, ?_, ?_, by decide⟩
  · intro i j hij hj hpre hi _
    obtain ⟨k, hk1, hk2, hk3, hk4, hk5⟩ :=
      find?_first_index (kwHit r) [] islamic_keywords i (Nat.lt_trans hij hj) hi
    refine ⟨k, hk1, hk3, hk4, ?_⟩
    unfold detect_historical_period
    rw [List.find?_eq_none.mpr (fun x hx => by simp [hpre x hx]), hk5]
  · intro i j hij hj hi _
    obtain ⟨k, hk1, hk2, hk3, hk4, hk5⟩ :=
      find?_first_index (kwHit r) [] pre_islamic_keywords i (Nat.lt_trans hij hj) hi
    refine ⟨k, hk1, hk3, hk4, ?_⟩
    unfold detect_historical_period
    rw [hk5]
  · intro i hi hp
    obtain ⟨k, hk1, hk2, hk3, hk4, hk5⟩ :=
      find?_first_index (kwHit r) [] pre_islamic_keywords i hi hp
    unfold detect_historical_period
    rw [hk5]

/-- C7 witness: in the record titled "Safavid Qajar bowl" both "Safavid"
(index 3) and "Qajar" (index 4) of the Islamic list match and no
pre-Islamic keyword matches, so the result is the earlier listed match. -/
theorem detect_keyword_precedence_witness :
    ∃ k, k ≤ 3 ∧
      kwHit { title := some (lit "Safavid Qajar bowl") } (islamic_keywords.getD k []) = true ∧
      (∀ m, m < k →
        kwHit { title := some (lit "Safavid Qajar bowl") } (islamic_keywords.getD m []) = false) ∧
      detect_historical_period { title := some (lit "Safavid Qajar bowl") } =
        (lit "islamic", islamic_keywords.getD k []) :=
  (detect_keyword_precedence { title := some (lit "Safavid Qajar bowl") }).1
    3 4 (by decide) (by decide) (by decide) (by decide) (by decide)

/-! ## C1: properties of normalize_text -/

/-- No two adjacent whitespace characters: combined with the fact that
every whitespace character is `' '`, this says every internal whitespace
run is a single space. -/
def NoAdjWS (l : Str) : Prop :=
  l.Chain' fun a b => ¬(isPySpace a = true ∧ isPySpace b = true)

theorem collapseWS_cons_not {c : Char} (rest : Str) (h : isPySpace c = false) :
    collapseWS (c :: rest) = c :: collapseWS rest := by
  cases rest <;> simp [collapseWS, h]

theorem collapseWS_cons_ws_ws {c c' : Char} (rest : Str) (h : isPySpace c = true)
    (h' : isPySpace c' = true) :
    collapseWS (c :: c' :: rest) = collapseWS (c' :: rest) := by
  simp [collapseWS, h, h']

theorem collapseWS_cons_ws_not {c c' : Char} (rest : Str) (h : isPySpace c = true)
    (h' : isPySpace c' = false) :
    collapseWS (c :: c' :: rest) = ' ' :: collapseWS (c' :: rest) := by
  simp [collapseWS, h, h']

theorem collapseWS_single_ws {c : Char} (h : isPySpace c = true) :
    collapseWS [c] = [' '] := by
  simp [collapseWS, h]

theorem mem_collapseWS :
    ∀ (l : Str), ∀ c ∈ collapseWS l, c = ' ' ∨ (c ∈ l ∧ isPySpace c = false) := by
  intro l
  induction l with
  | nil => intro c hc; simp [collapseWS] at hc
  | cons a t ih =>
    intro c hc
    by_cases ha : isPySpace a = true
    · cases t with
      | nil =>
        rw [collapseWS_single_ws ha] at hc
        simp at hc
        exact Or.inl hc
      | cons b t' =>
        by_cases hb : isPySpace b = true
        · rw [collapseWS_cons_ws_ws t' ha hb] at hc
          rcases ih c hc with h | ⟨h1, h2⟩
          · exact Or.inl h
          · exact Or.inr ⟨List.mem_cons_of_mem a h1, h2⟩
        · rw [collapseWS_cons_ws_not t' ha (by simpa using hb)] at hc
          rcases List.mem_cons.mp hc with h | h
          · exact Or.inl h
          · rcases ih c h with h | ⟨h1, h2⟩
            · exact Or.inl h
            · exact Or.inr ⟨List.mem_cons_of_mem a h1, h2⟩
    · rw [collapseWS_cons_not t (by simpa using ha)] at hc
      rcases List.mem_cons.mp hc with h | h
      · exact Or.inr ⟨h ▸ List.mem_cons_self a t, h ▸ by simpa using ha⟩
      · rcases ih c h with h' | ⟨h1, h2⟩
        · exact Or.inl h'
        · exact Or.inr ⟨List.mem_cons_of_mem a h1, h2⟩

theorem head?_collapseWS_not_ws {b : Char} {t : Str} (hb : isPySpace b = false) :
    (collapseWS (b :: t)).head? = some b := by
  rw [collapseWS_cons_not t hb]; rfl

theorem noAdjWS_collapseWS : ∀ (l : Str), NoAdjWS (collapseWS l) := by
  intro l
  induction l with
  | nil => simp [collapseWS, NoAdjWS]
  | cons a t ih =>
    by_cases ha : isPySpace a = true
    · cases t with
      | nil => rw [collapseWS_single_ws ha]; simp [NoAdjWS]
      | cons b t' =>
        by_cases hb : isPySpace b = true
        · rwa [collapseWS_cons_ws_ws t' ha hb]
        · have hb' : isPySpace b = false := by simpa using hb
          rw [collapseWS_cons_ws_not t' ha hb']
          refine List.chain'_cons'.mpr ⟨?_, ih⟩
          intro y hy
          rw [head?_collapseWS_not_ws hb'] at hy
          simp only [Option.mem_def, Option.some.injEq] at hy
          subst hy
          simp [hb']
    · have ha' : isPySpace a = false := by simpa using ha
      rw [collapseWS_cons_not t ha']
      refine List.chain'_cons'.mpr ⟨?_, ih⟩
      intro y _
      simp [ha']

theorem head?_dropWhile_not (p : Char → Bool) :
    ∀ (l : Str) (c : Char), (l.dropWhile p).head? = some c → p c = false := by
  intro l
  induction l with
  | nil => intro c hc; simp at hc
  | cons a t ih =>
    intro c hc
    by_cases ha : p a = true
    · rw [List.dropWhile_cons, if_pos ha] at hc
      exact ih c hc
    · rw [List.dropWhile_cons, if_neg ha] at hc
      simp only [List.head?_cons, Option.some.injEq] at hc
      subst hc
      simpa using ha

theorem rstrip_append (l : Str) : ∃ t, rstrip l ++ t = l := by
  obtain ⟨s, hs⟩ := List.dropWhile_suffix (l := l.reverse) isPySpace
  refine ⟨s.reverse, ?_⟩
  have := congrArg List.reverse hs
  simpa [rstrip, List.reverse_append] using this

theorem getLast?_rstrip_not_ws (l : Str) :
    ∀ c, (rstrip l).getLast? = some c → isPySpace c = false := by
  intro c hc
  rw [rstrip, List.getLast?_reverse] at hc
  exact head?_dropWhile_not isPySpace l.reverse c hc

theorem noAdjWS_of_append_left {l₁ l₂ : Str} (h : NoAdjWS (l₁ ++ l₂)) : NoAdjWS l₁ :=
  (List.chain'_append.mp h).1

theorem noAdjWS_of_append_right {l₁ l₂ : Str} (h : NoAdjWS (l₁ ++ l₂)) : NoAdjWS l₂ :=
  (List.chain'_append.mp h).2.1

theorem noAdjWS_lstrip {l : Str} (h : NoAdjWS l) : NoAdjWS (lstrip l) := by
  obtain ⟨s, hs⟩ := List.dropWhile_suffix (l := l) isPySpace
  rw [lstrip]
  exact noAdjWS_of_append_right (hs ▸ h)

theorem noAdjWS_rstrip {l : Str} (h : NoAdjWS l) : NoAdjWS (rstrip l) := by
  obtain ⟨t, ht⟩ := rstrip_append l
  exact noAdjWS_of_append_left (ht ▸ h)

theorem mem_lstrip {l : Str} {c : Char} (h : c ∈ lstrip l) : c ∈ l := by
  obtain ⟨s, hs⟩ := List.dropWhile_suffix (l := l) isPySpace
  rw [lstrip] at h
  rw [← hs]
  exact List.mem_append_right s h

theorem mem_rstrip {l : Str} {c : Char} (h : c ∈ rstrip l) : c ∈ l := by
  obtain ⟨t, ht⟩ := rstrip_append l
  rw [← ht]
  exact List.mem_append_left t h

theorem head?_rstrip {l : Str} {c : Char} (h : (rstrip l).head? = some c) :
    l.head? = some c := by
  obtain ⟨t, ht⟩ := rstrip_append l
  rw [← ht]
  cases hr : rstrip l with
  | nil => rw [hr] at h; simp at h
  | cons a m => rw [hr] at h; simp at h; simp [h]

theorem head?_take {l : Str} {n : Nat} {c : Char} (h : (l.take n).head? = some c) :
    l.head? = some c := by
  cases l with
  | nil => simp at h
  | cons a t =>
    cases n with
    | zero => simp at h
    | succ n => simpa using h

theorem collapseWS_eq_self :
    ∀ (l : Str), (∀ c ∈ l, isPySpace c = true → c = ' ') → NoAdjWS l →
    collapseWS l = l := by
  intro l
  induction l with
  | nil => intro _ _; rfl
  | cons a t ih =>
    intro h1 h2
    by_cases ha : isPySpace a = true
    · have haSp : a = ' ' := h1 a (List.mem_cons_self a t) ha
      cases t with
      | nil => rw [collapseWS_single_ws ha, haSp]
      | cons b t' =>
        have hrel := (List.chain'_cons.mp h2).1
        have hb : isPySpace b = false := by
          by_contra hb'
          exact hrel ⟨ha, by simpa using hb'⟩
        rw [collapseWS_cons_ws_not t' ha hb, haSp,
          ih (fun c hc h => h1 c (List.mem_cons_of_mem a hc) h) (List.chain'_cons'.mp h2).2]
    · rw [collapseWS_cons_not t (by simpa using ha),
        ih (fun c hc h => h1 c (List.mem_cons_of_mem a hc) h) (List.chain'_cons'.mp h2).2]

theorem dropWhile_eq_self_of_head (p : Char → Bool) (l : Str)
    (h : ∀ c, l.head? = some c → p c = false) : l.dropWhile p = l := by
  cases l with
  | nil => rfl
  | cons a t => rw [List.dropWhile_cons, if_neg (by simp [h a rfl])]

theorem rstrip_eq_self (l : Str)
    (h : ∀ c, l.getLast? = some c → isPySpace c = false) : rstrip l = l := by
  rw [rstrip, dropWhile_eq_self_of_head isPySpace l.reverse
    (fun c hc => h c (by rwa [List.head?_reverse] at hc)), List.reverse_reverse]

theorem normalize_text_eq (s : Str) :
    normalize_text s = (pyStrip (collapseWS s)).take 500 := by
  unfold normalize_text
  split
  · subst ‹s = []›; rfl
  · rfl

/-- C1 (amended): the output of `normalize_text` has length at most 500,
no two adjacent whitespace characters (so every internal whitespace run
is a single space), only `' '` as whitespace, and no leading whitespace;
idempotence and the absence of trailing whitespace additionally hold
whenever the collapsed-and-stripped text is not cut by the final
truncation to 500 characters (truncation can cut right after a space,
leaving a single trailing space and breaking idempotence). -/
theorem normalize_text_spec (s : Str) :
    (normalize_text s).length ≤ 500 ∧
    NoAdjWS (normalize_text s) ∧
    (∀ c ∈ normalize_text s, isPySpace c = true → c = ' ') ∧
    (∀ c, (normalize_text s).head? = some c → isPySpace c = false) ∧
    ((pyStrip (collapseWS s)).length ≤ 500 →
      normalize_text (normalize_text s) = normalize_text s ∧
      ∀ c, (normalize_text s).getLast? = some c → isPySpace c = false) := by
  have hmem : ∀ c ∈ pyStrip (collapseWS s), isPySpace c = true → c = ' ' := by
    intro c hc hws
    have hc' : c ∈ collapseWS s := mem_lstrip (mem_rstrip hc)
    rcases mem_collapseWS s c hc' with h | ⟨_, h⟩
    · exact h
    · rw [h] at hws; exact absurd hws (by simp)
  have hchain : NoAdjWS (pyStrip (collapseWS s)) :=
    noAdjWS_rstrip (noAdjWS_lstrip (noAdjWS_collapseWS s))
  have hhead : ∀ c, (pyStrip (collapseWS s)).head? = some c → isPySpace c = false := by
    intro c hc
    exact head?_dropWhile_not isPySpace (collapseWS s) c (head?_rstrip hc)
  have hlast : ∀ c, (pyStrip (collapseWS s)).getLast? = some c → isPySpace c = false :=
    fun c hc => getLast?_rstrip_not_ws (lstrip (collapseWS s)) c hc
  refine ⟨?_, ?_, ?_, ?_, ?_⟩
  · rw [normalize_text_eq, List.length_take]
    exact Nat.min_le_left _ _
  · rw [normalize_text_eq]
    exact List.Chain'.take hchain 500
  · intro c hc hws
    rw [normalize_text_eq] at hc
    exact hmem c (List.take_subset 500 _ hc) hws
  · intro c hc
    rw [normalize_text_eq] at hc
    exact hhead c (head?_take hc)
  · intro h500
    have htake : (pyStrip (collapseWS s)).take 500 = pyStrip (collapseWS s) :=
      List.take_of_length_le h500
    have hnorm : normalize_text s = pyStrip (collapseWS s) := by
      rw [normalize_text_eq, htake]
    constructor
    · rw [hnorm, normalize_text_eq,
        collapseWS_eq_self _ hmem hchain, pyStrip,
        lstrip, dropWhile_eq_self_of_head isPySpace _ hhead,
        rstrip_eq_self _ hlast, List.take_of_length_le h500]
    · intro c hc
      rw [hnorm] at hc
      exact hlast c hc

/-- C1 witness: on the two-word string "a  b" (collapsed-stripped length
3, untruncated) `normalize_text` is idempotent. -/
theorem normalize_text_spec_witness :
    (pyStrip (collapseWS (lit "a  b"))).length ≤ 500 ∧
    normalize_text (normalize_text (lit "a  b")) = normalize_text (lit "a  b") :=
  ⟨by decide, ((normalize_text_spec (lit "a  b")).2.2.2.2 (by decide)).1⟩

set_option maxRecDepth 10000 in
/-- C1 counterexample: for the 501-character string of 499 `'a'`s
followed by `" b"`, normalization is not idempotent and the output ends
in a space: truncation to 500 characters happens after stripping and cuts
directly after the space. -/
theorem normalize_text_not_idempotent :
    normalize_text (normalize_text (List.replicate 499 'a' ++ [' ', 'b'])) ≠
      normalize_text (List.replicate 499 'a' ++ [' ', 'b']) ∧
    (normalize_text (List.replicate 499 'a' ++ [' ', 'b'])).getLast? = some ' ' := by
  decide

/-! ## C4, C5, C6: the image fetcher -/

theorem dl_loop_success_first (net : Nat → Str → NetOutcome) (hd : Str)
    (fs : Option (List Nat)) (i r : Nat) (c : List Nat)
    (h : net i hd = NetOutcome.resp true c) (hlen : min_image_bytes ≤ c.length) :
    dl_loop net hd fs i (r + 1) = (true, some c, [hd]) := by
  simp only [dl_loop]
  rw [h]
  simp [Nat.not_lt.mpr hlen]

theorem dl_loop_reject_first (net : Nat → Str → NetOutcome) (hd : Str)
    (fs : Option (List Nat)) (i r : Nat) (c : List Nat)
    (h : net i hd = NetOutcome.resp true c) (hlen : c.length < min_image_bytes) :
    dl_loop net hd fs i (r + 1) =
      ((dl_loop net hd fs (i + 1) r).1, (dl_loop net hd fs (i + 1) r).2.1,
        hd :: (dl_loop net hd fs (i + 1) r).2.2) := by
  simp only [dl_loop]
  rw [h]
  simp [hlen]

theorem dl_loop_fail_step (net : Nat → Str → NetOutcome) (hd : Str)
    (fs : Option (List Nat)) (i r : Nat) (h : attemptFails (net i hd) = true) :
    dl_loop net hd fs i (r + 1) =
      ((dl_loop net hd fs (i + 1) r).1, (dl_loop net hd fs (i + 1) r).2.1,
        hd :: (dl_loop net hd fs (i + 1) r).2.2) := by
  simp only [dl_loop]
  cases hnet : net i hd with
  | exn => rfl
  | resp ok content =>
    rw [hnet] at h
    simp only [attemptFails] at h
    cases ok with
    | false => simp
    | true =>
      have hlen : content.length < min_image_bytes := by simpa using h
      simp [hlen]

theorem attempt_succeeds_shape (o : NetOutcome) (h : ¬attemptFails o = true) :
    ∃ c, o = NetOutcome.resp true c ∧ min_image_bytes ≤ c.length := by
  cases o with
  | exn => simp [attemptFails] at h
  | resp ok content =>
    cases ok with
    | false => simp [attemptFails] at h
    | true =>
      refine ⟨content, rfl, ?_⟩
      simp only [attemptFails, Bool.not_true, Bool.false_or,
        decide_eq_true_eq] at h
      exact Nat.le_of_not_lt h

theorem dl_loop_sent_replicate (net : Nat → Str → NetOutcome) (hd : Str)
    (fs : Option (List Nat)) :
    ∀ r i, (dl_loop net hd fs i r).2.2 =
      List.replicate (dl_loop net hd fs i r).2.2.length hd ∧
      (dl_loop net hd fs i r).2.2.length ≤ r := by
  intro r
  induction r with
  | zero => intro i; simp [dl_loop]
  | succ r ih =>
    intro i
    obtain ⟨h1, h2⟩ := ih (i + 1)
    by_cases hf : attemptFails (net i hd) = true
    · rw [dl_loop_fail_step net hd fs i r hf]
      refine ⟨?_, ?_⟩
      · simp only [List.length_cons, List.replicate_succ]
        rw [← h1]
      · simpa using Nat.succ_le_succ h2
    · obtain ⟨c, hc, hlen⟩ := attempt_succeeds_shape (net i hd) hf
      rw [dl_loop_success_first net hd fs i r c hc hlen]
      exact ⟨rfl, Nat.succ_le_succ (Nat.zero_le r)⟩

/-- C4 (amended): `download_image` draws the User-Agent once, before the
retry loop: it consumes exactly one draw of the random stream and every
attempt sends that same header (the sent-header trace is a constant
list), with at most `retries` attempts made. -/
theorem download_image_single_ua_draw (net : Nat → Str → NetOutcome)
    (rand : Nat → Nat) (rk : Nat) (fs : Option (List Nat)) :
    (download_image net rand rk fs).2.2.1 = rk + 1 ∧
    (download_image net rand rk fs).2.2.2 =
      List.replicate (download_image net rand rk fs).2.2.2.length
        (get_random_user_agent rand rk).1 ∧
    (download_image net rand rk fs).2.2.2.length ≤ retries := by
  obtain ⟨h1, h2⟩ :=
    dl_loop_sent_replicate net (get_random_user_agent rand rk).1 fs retries 0
  exact ⟨rfl, h1, h2⟩

set_option maxRecDepth 4000 in
/-- C4 counterexample: with the identity draw stream and a network where
every attempt raises, all four attempts send the same first user agent,
whereas re-sampling the header on each attempt (as the claim states)
would send the four pairwise drawn agents, a different list. -/
theorem download_image_not_fresh_ua :
    (download_image (fun _ _ => NetOutcome.exn) (fun i => i) 0 none).2.2.2 =
      [user_agents.getD 0 [], user_agents.getD 0 [], user_agents.getD 0 [],
       user_agents.getD 0 []] ∧
    [user_agents.getD 0 [], user_agents.getD 0 [], user_agents.getD 0 [],
     user_agents.getD 0 []] ≠
      [user_agents.getD (0 % user_agents.length) [],
       user_agents.getD (1 % user_agents.length) [],
       user_agents.getD (2 % user_agents.length) [],
       user_agents.getD (3 % user_agents.length) []] := by
  constructor
  · rfl
  · decide

theorem dl_loop_all_fail (net : Nat → Str → NetOutcome) (hd : Str)
    (fs : Option (List Nat)) (h : ∀ i ua, attemptFails (net i ua) = true) :
    ∀ r i, dl_loop net hd fs i r = (false, fs, List.replicate r hd) := by
  intro r
  induction r with
  | zero => intro i; simp [dl_loop]
  | succ r ih =>
    intro i
    have hi := h i hd
    simp only [dl_loop]
    cases hnet : net i hd with
    | exn => simp [ih (i + 1), List.replicate_succ]
    | resp ok content =>
      rw [hnet] at hi
      simp only [attemptFails] at hi
      cases ok with
      | false => simp [ih (i + 1), List.replicate_succ]
      | true =>
        have hlen : content.length < min_image_bytes := by simpa using hi
        simp [hlen, ih (i + 1), List.replicate_succ]

/-- C5: if every one of the `retries` (4) attempts fails — by exception,
error status, or undersized payload — `download_image` returns `False`
and the destination filesystem state is unchanged: no file, partial or
otherwise, is written. -/
theorem download_image_retry_exhaustion (net : Nat → Str → NetOutcome)
    (rand : Nat → Nat) (rk : Nat) (fs : Option (List Nat))
    (h : ∀ i ua, attemptFails (net i ua) = true) :
    download_image net rand rk fs =
      (false, fs, rk + 1, List.replicate retries (get_random_user_agent rand rk).1) := by
  simp only [download_image]
  rw [dl_loop_all_fail net (get_random_user_agent rand rk).1 fs h retries 0]
  rfl

/-- C5 witness: a network that raises on every attempt. -/
theorem download_image_retry_exhaustion_witness :
    download_image (fun _ _ => NetOutcome.exn) (fun _ => 0) 7 none =
      (false, none, 8, List.replicate retries (get_random_user_agent (fun _ => 0) 7).1) :=
  download_image_retry_exhaustion _ _ _ _ (fun _ _ => rfl)

/-- C6: an attempt whose response status is a success is accepted — the
payload is written to the destination and `True` returned — iff the
payload is at least 10 KiB (10240 bytes).  When the payload is smaller,
nothing is written and the remaining attempts are retried.  At the
boundary: a 10239-byte payload is rejected on every attempt (terminal
failure, nothing written) and a 10240-byte payload is accepted and
written on the first attempt. -/
theorem download_image_size_threshold (net : Nat → Str → NetOutcome)
    (rand : Nat → Nat) (rk : Nat) (fs : Option (List Nat)) (c : List Nat)
    (h : net 0 (get_random_user_agent rand rk).1 = NetOutcome.resp true c) :
    (min_image_bytes ≤ c.length →
      download_image net rand rk fs =
        (true, some c, rk + 1, [(get_random_user_agent rand rk).1])) ∧
    (c.length < min_image_bytes →
      download_image net rand rk fs =
        ((dl_loop net (get_random_user_agent rand rk).1 fs 1 3).1,
         (dl_loop net (get_random_user_agent rand rk).1 fs 1 3).2.1,
         rk + 1,
         (get_random_user_agent rand rk).1 ::
           (dl_loop net (get_random_user_agent rand rk).1 fs 1 3).2.2)) ∧
    download_image (fun _ _ => NetOutcome.resp true (List.replicate 10239 0)) rand rk fs =
      (false, fs, rk + 1, List.replicate retries (get_random_user_agent rand rk).1) ∧
    download_image (fun _ _ => NetOutcome.resp true (List.replicate 10240 0)) rand rk fs =
      (true, some (List.replicate 10240 0), rk + 1,
        [(get_random_user_agent rand rk).1]) := by
  refine ⟨?_, ?_, ?_, ?_⟩
  · intro hlen
    simp only [download_image]
    rw [show retries = 3 + 1 from rfl,
      dl_loop_success_first net (get_random_user_agent rand rk).1 fs 0 3 c h hlen]
    rfl
  · intro hlen
    simp only [download_image]
    rw [show retries = 3 + 1 from rfl,
      dl_loop_reject_first net (get_random_user_agent rand rk).1 fs 0 3 c h hlen]
    rfl
  · simp only [download_image]
    rw [dl_loop_all_fail (fun _ _ => NetOutcome.resp true (List.replicate 10239 0))
      (get_random_user_agent rand rk).1 fs
      (fun i ua => by
        simp only [attemptFails, Bool.not_true, Bool.false_or, List.length_replicate]
        decide) retries 0]
    rfl
  · simp only [download_image]
    rw [show retries = 3 + 1 from rfl,
      dl_loop_success_first (fun _ _ => NetOutcome.resp true (List.replicate 10240 0))
        (get_random_user_agent rand rk).1 fs 0 3 (List.replicate 10240 0) rfl
        (by simp only [List.length_replicate]; decide)]
    rfl

/-- C6 witness: a first attempt carrying exactly 10240 bytes is accepted
and written. -/
theorem download_image_size_threshold_witness :
    min_image_bytes ≤ (List.replicate 10240 0).length ∧
    download_image (fun _ _ => NetOutcome.resp true (List.replicate 10240 0))
        (fun _ => 1) 0 none =
      (true, some (List.replicate 10240 0), 1,
        [(get_random_user_agent (fun _ => 1) 0).1]) :=
  ⟨by simp only [List.length_replicate]; decide,
    (download_image_size_threshold _ (fun _ => 1) 0 none _ rfl).1
      (by simp only [List.length_replicate]; decide)⟩

/-! ## C3, C8, C10: grouping and sampling -/

theorem take_sample_spec : SampleFnSpec take_sample := by
  intro l k hk
  refine ⟨?_, ?_, ?_⟩
  · rw [take_sample, List.length_take]
    exact Nat.min_eq_left hk
  · intro x hx
    exact List.take_subset k l hx
  · intro h
    exact List.Nodup.sublist (List.take_sublist k l) h

/-- The extensional properties of each per-group selection: members come
from the group, at most `target` of them, and no duplicates when the
group has none (for `1 ≤ target`). -/
theorem select_from_group_props (f : List Nat → Nat → List Nat)
    (hf : SampleFnSpec f) (target : Nat) (ids : List Nat) :
    (∀ x ∈ select_from_group f target ids, x ∈ ids) ∧
    (select_from_group f target ids).length ≤ max target ids.length ∧
    (ids.length > target → (select_from_group f target ids).length = target) ∧
    (ids.length ≤ target → select_from_group f target ids = ids) ∧
    (ids.Nodup → (select_from_group f target ids).Nodup) := by
  unfold select_from_group
  by_cases hnil : ids = []
  · simp [hnil]
  · rw [if_neg hnil]
    by_cases hle : ids.length ≤ target
    · rw [if_pos hle]
      refine ⟨fun x hx => hx, Nat.le_max_right _ _, ?_, fun _ => rfl, fun h => h⟩
      intro hgt
      exact absurd hle (Nat.not_le.mpr hgt)
    · rw [if_neg hle]
      obtain ⟨hlen, hmemb, hnd⟩ := hf ids target (Nat.le_of_lt (Nat.lt_of_not_le hle))
      refine ⟨hmemb, ?_, fun _ => hlen, fun h => absurd h hle, hnd⟩
      rw [hlen]
      exact Nat.le_max_left _ _

/-- C3: for a family of groups with at least one non-empty group (so that
Python's `min` does not raise), the sampling step computes
`target = max(1, min(m, maxImages // numGroups))` where `m` is the least
size among the non-empty groups (empty groups are excluded from the
minimum and contribute nothing), takes every member of a group of size at
most `target`, and takes exactly `target` distinct members of any larger
group, all drawn from that group — for every sampler satisfying the
without-replacement contract of `random.sample`. -/
theorem sampling_spec (f : List Nat → Nat → List Nat) (hf : SampleFnSpec f)
    (groups : List (Str × List Nat)) (maxImages : Nat) (m : Nat)
    (hm : (groups.filterMap fun g => if g.2 = [] then none else some g.2.length).min? = some m) :
    ((∃ g ∈ groups, g.2 ≠ [] ∧ g.2.length = m) ∧
      (∀ g ∈ groups, g.2 ≠ [] → m ≤ g.2.length)) ∧
    (∀ target, target = max 1 (min m (maxImages / groups.length)) →
      sample_groups f groups maxImages =
        some (((groups.map fun g => select_from_group f target g.2).flatten).take maxImages) ∧
      ∀ g ∈ groups,
        (g.2 = [] → select_from_group f target g.2 = []) ∧
        (g.2.length ≤ target → select_from_group f target g.2 = g.2) ∧
        (target < g.2.length →
          (select_from_group f target g.2).length = target ∧
          (∀ x ∈ select_from_group f target g.2, x ∈ g.2) ∧
          (g.2.Nodup → (select_from_group f target g.2).Nodup))) := by
  obtain ⟨hmem, hle⟩ := List.min?_eq_some_iff'.mp hm
  constructor
  · constructor
    · obtain ⟨g, hg, heq⟩ := List.mem_filterMap.mp hmem
      refine ⟨g, hg, ?_, ?_⟩
      · intro hnil
        rw [if_pos hnil] at heq
        exact Option.noConfusion heq
      · by_cases hnil : g.2 = []
        · rw [if_pos hnil] at heq
          exact absurd heq (Option.noConfusion)
        · rw [if_neg hnil] at heq
          exact Option.some.inj heq
    · intro g hg hne
      exact hle _ (List.mem_filterMap.mpr ⟨g, hg, by rw [if_neg hne]⟩)
  · intro target ht
    constructor
    · simp only [sample_groups]
      rw [hm, ht]
    · intro g hg
      obtain ⟨hmemb, _, hexact, hall, hnd⟩ := select_from_group_props f hf target g.2
      refine ⟨?_, hall, ?_⟩
      · intro hnil
        simp [select_from_group, hnil]
      · intro hgt
        exact ⟨hexact hgt, hmemb, hnd⟩

/-- C3 witness: groups A = [1,2,3] and B = [4] with cap 3; the minimum
non-empty size is 1, the target is max(1, min(1, 3 div 2)) = 1, so A
contributes one sampled member and B all of its single member. -/
theorem sampling_spec_witness :
    sample_groups take_sample [(lit "A", [1, 2, 3]), (lit "B", [4])] 3 =
      some ((([(lit "A", [1, 2, 3]), (lit "B", [4])].map fun g =>
        select_from_group take_sample 1 g.2).flatten).take 3) :=
  (((sampling_spec take_sample take_sample_spec
      [(lit "A", [1, 2, 3]), (lit "B", [4])] 3 1 (by decide)).2) 1 (by decide)).1

/-- Filtering the concatenated per-group selections down to the members
of one group `g` of a pairwise-disjoint family yields a sublist of `g`'s
own selection: the other groups' selections contribute nothing. -/
theorem flatten_filter_sublist_of_disjoint (p : Nat → Bool)
    (sel : Str × List Nat → List Nat)
    (hsel : ∀ h, ∀ x ∈ sel h, x ∈ h.2) (g : Str × List Nat) :
    ∀ groups : List (Str × List Nat),
      groups.Pairwise (fun g₁ g₂ => ∀ x ∈ g₁.2, x ∉ g₂.2) →
      g ∈ groups → (∀ x, p x = true → x ∈ g.2) →
      List.Sublist ((groups.map sel).flatten.filter p) (sel g) := by
  intro groups
  induction groups with
  | nil => intro _ hg; exact absurd hg (List.not_mem_nil g)
  | cons a t ih =>
    intro hpw hg hp
    obtain ⟨hhead, htail⟩ := List.pairwise_cons.mp hpw
    rw [List.map_cons, List.flatten_cons, List.filter_append]
    rcases List.mem_cons.mp hg with rfl | hgt
    · have hnil : ((t.map sel).flatten.filter p) = [] := by
        rw [List.filter_eq_nil_iff]
        intro x hx hpx
        obtain ⟨l, hl, hxl⟩ := List.mem_flatten.mp hx
        obtain ⟨h', hh', rfl⟩ := List.mem_map.mp hl
        exact hhead h' hh' x (hp x hpx) (hsel h' x hxl)
      rw [hnil, List.append_nil]
      exact List.filter_sublist _
    · have hnil : (sel a).filter p = [] := by
        rw [List.filter_eq_nil_iff]
        intro x hx hpx
        have hxg : x ∈ g.2 := hp x hpx
        exact hhead g hgt x (hsel a x hx) hxg
      rw [hnil, List.nil_append]
      exact ih htail hgt hp

/-- C8: whenever the sampling step succeeds, the final sampled list has
length at most `maxImages`, and — for pairwise-disjoint groups without
internal duplicates, as produced by the grouping phase — it contains at
most `targetPerGroup` members of any single group and no duplicate IDs
drawn from the same group. -/
theorem sampling_bounds (f : List Nat → Nat → List Nat) (hf : SampleFnSpec f)
    (groups : List (Str × List Nat)) (maxImages : Nat) (m : Nat)
    (hm : (groups.filterMap fun g => if g.2 = [] then none else some g.2.length).min? = some m)
    (hdisj : groups.Pairwise fun g₁ g₂ => ∀ x ∈ g₁.2, x ∉ g₂.2)
    (hnd : ∀ g ∈ groups, g.2.Nodup)
    (res : List Nat) (hres : sample_groups f groups maxImages = some res) :
    res.length ≤ maxImages ∧
    ∀ g ∈ groups,
      (res.filter fun x => decide (x ∈ g.2)).length ≤
        max 1 (min m (maxImages / groups.length)) ∧
      (res.filter fun x => decide (x ∈ g.2)).Nodup := by
  have heq : sample_groups f groups maxImages =
      some (((groups.map fun g =>
        select_from_group f (max 1 (min m (maxImages / groups.length))) g.2).flatten).take
          maxImages) := by
    simp only [sample_groups]
    rw [hm]
  rw [heq] at hres
  have hres' : res =
      ((groups.map fun g =>
        select_from_group f (max 1 (min m (maxImages / groups.length))) g.2).flatten).take
        maxImages :=
    (Option.some.inj hres).symm
  subst hres'
  refine ⟨?_, ?_⟩
  · rw [List.length_take]
    exact Nat.min_le_left _ _
  · intro g hg
    have hsub : List.Sublist
        ((((groups.map fun h =>
          select_from_group f (max 1 (min m (maxImages / groups.length))) h.2).flatten).take
            maxImages).filter fun x => decide (x ∈ g.2))
        (select_from_group f (max 1 (min m (maxImages / groups.length))) g.2) := by
      refine List.Sublist.trans
        (List.Sublist.filter _ (List.take_sublist maxImages _)) ?_
      exact flatten_filter_sublist_of_disjoint _
        (fun h => select_from_group f (max 1 (min m (maxImages / groups.length))) h.2)
        (fun h x hx => (select_from_group_props f hf _ h.2).1 x hx) g groups hdisj hg
        (fun x hpx => by simpa using hpx)
    obtain ⟨hmemb, hlen, hexact, hall, hndsel⟩ :=
      select_from_group_props f hf (max 1 (min m (maxImages / groups.length))) g.2
    constructor
    · refine (List.Sublist.length_le hsub).trans ?_
      by_cases hgt : g.2.length > max 1 (min m (maxImages / groups.length))
      · rw [hexact hgt]
      · rw [hall (Nat.le_of_not_lt hgt)]
        exact Nat.le_of_not_lt hgt
    · exact List.Nodup.sublist hsub (hndsel (hnd g hg))

/-- C8 witness: the concrete two-group family of the C3 witness, with
disjoint duplicate-free groups. -/
theorem sampling_bounds_witness :
    (((sample_groups take_sample [(lit "A", [1, 2, 3]), (lit "B", [4])] 3).getD []).filter
      fun x => decide (x ∈ [1, 2, 3])).length ≤ 1 := by
  have h := sampling_bounds take_sample take_sample_spec
    [(lit "A", [1, 2, 3]), (lit "B", [4])] 3 1 (by decide)
    (by decide) (by decide)
    ((sample_groups take_sample [(lit "A", [1, 2, 3]), (lit "B", [4])] 3).getD [])
    (by decide)
  exact (h.2 (lit "A", [1, 2, 3]) (by decide)).1

/-- C10: when grouping produces no group at all (discovery yielded no IDs
or every fetch-and-classify failed) — or, hypothetically, only empty
groups — `min` is applied to an empty sequence and raises, so the
sampling step fails and the pipeline produces no metadata output. -/
theorem pipeline_empty_groups (f : List Nat → Nat → List Nat)
    (proc : Nat → Option MetadataRecord) (maxImages : Nat) :
    sample_groups f [] maxImages = none ∧
    pipeline_from_groups f proc [] maxImages = none ∧
    (∀ groups : List (Str × List Nat), (∀ g ∈ groups, g.2 = []) →
      sample_groups f groups maxImages = none ∧
      pipeline_from_groups f proc groups maxImages = none) := by
  refine ⟨rfl, rfl, ?_⟩
  intro groups h
  have hfm : (groups.filterMap fun g => if g.2 = [] then none else some g.2.length) = [] :=
    List.filterMap_eq_nil_iff.mpr (fun g hg => by rw [if_pos (h g hg)])
  have hs : sample_groups f groups maxImages = none := by
    simp only [sample_groups]
    rw [hfm]
    rfl
  exact ⟨hs, by rw [pipeline_from_groups, hs]; rfl⟩

/-- C10 witness: a single group whose every member failed to fetch. -/
theorem pipeline_empty_groups_witness :
    sample_groups take_sample [(lit "A", ([] : List Nat))] 17 = none ∧
    pipeline_from_groups take_sample (fun _ => none) [(lit "A", ([] : List Nat))] 17 = none :=
  (pipeline_empty_groups take_sample (fun _ => none) 17).2.2
    [(lit "A", ([] : List Nat))] (by decide)

/-! ## C9: the object processor -/

/-- C9: given the fetched object data, `process_pottery_object` fails
with the no-image error exactly when the record has no (or an empty)
primary-image URL — checked before any download is attempted — fails
with the download error exactly when a primary image is present but the
image fetch reports failure (retries exhausted), and otherwise succeeds
with a record whose eleven free-text fields are all normalized through
`normalize_text` (whitespace collapsed, stripped, truncated to 500),
whose `tags` list is flattened to a comma-joined string (empty for a
missing list), and whose `isPublicDomain` defaults to `false` when
missing. -/
theorem process_pottery_object_spec (dl : Str → Str → Bool) (obj_id : Nat)
    (image_dir : Str) (data : ObjData) :
    (process_pottery_object dl obj_id image_dir data = .error .noImage ↔
      data.primaryImage.getD [] = []) ∧
    (process_pottery_object dl obj_id image_dir data = .error .downloadFailed ↔
      data.primaryImage.getD [] ≠ [] ∧
      dl (data.primaryImage.getD []) (image_path image_dir obj_id data) = false) ∧
    ((∃ r, process_pottery_object dl obj_id image_dir data = .ok r) ↔
      data.primaryImage.getD [] ≠ [] ∧
      dl (data.primaryImage.getD []) (image_path image_dir obj_id data) = true) ∧
    (∀ r, process_pottery_object dl obj_id image_dir data = .ok r →
      r.objectID = obj_id ∧
      r.title = normalize_text (data.title.getD []) ∧
      r.culture = normalize_text (data.culture.getD []) ∧
      r.period = normalize_text (data.period.getD []) ∧
      r.objectDate = normalize_text (data.objectDate.getD []) ∧
      r.objectName = normalize_text (data.objectName.getD []) ∧
      r.classification = normalize_text (data.classification.getD []) ∧
      r.medium = normalize_text (data.medium.getD []) ∧
      r.dimensions = normalize_text (data.dimensions.getD []) ∧
      r.creditLine = normalize_text (data.creditLine.getD []) ∧
      r.country = normalize_text (data.country.getD []) ∧
      r.region = normalize_text (data.region.getD []) ∧
      r.tags = joinComma (data.tags.getD []) ∧
      r.isPublicDomain = data.isPublicDomain.getD false ∧
      r.primaryImage = data.primaryImage ∧
      r.era_classification = (detect_historical_period data).1 ∧
      r.historical_period = (detect_historical_period data).2 ∧
      r.local_path = image_path image_dir obj_id data ∧
      r.source = lit "MET") := by
  by_cases hno : data.primaryImage.getD [] = []
  · have hproc : process_pottery_object dl obj_id image_dir data = .error .noImage := by
      simp only [process_pottery_object]
      rw [if_pos hno]
    rw [hproc]
    exact ⟨⟨fun _ => hno, fun _ => rfl⟩,
      ⟨fun h => absurd (Except.error.inj h) (fun hh => ProcError.noConfusion hh),
        fun h => absurd hno h.1⟩,
      ⟨fun ⟨r, h⟩ => Except.noConfusion h, fun h => absurd hno h.1⟩,
      fun r h => Except.noConfusion h⟩
  · by_cases hdl : dl (data.primaryImage.getD []) (image_path image_dir obj_id data) = true
    · have hproc : process_pottery_object dl obj_id image_dir data =
          .ok (build_record obj_id image_dir data) := by
        simp only [process_pottery_object]
        rw [if_neg hno, if_pos hdl]
      rw [hproc]
      refine ⟨⟨fun h => Except.noConfusion h, fun h => absurd h hno⟩,
        ⟨fun h => Except.noConfusion h, fun h => absurd hdl (by simp [h.2])⟩,
        ⟨fun _ => ⟨hno, hdl⟩, fun _ => ⟨build_record obj_id image_dir data, rfl⟩⟩,
        fun r h => ?_⟩
      have hr : build_record obj_id image_dir data = r := Except.ok.inj h
      subst hr
      exact ⟨rfl, rfl, rfl, rfl, rfl, rfl, rfl, rfl, rfl, rfl, rfl, rfl, rfl,
        rfl, rfl, rfl, rfl, rfl, rfl⟩
    · have hdl' : dl (data.primaryImage.getD []) (image_path image_dir obj_id data) = false := by
        simpa using hdl
      have hproc : process_pottery_object dl obj_id image_dir data =
          .error .downloadFailed := by
        simp only [process_pottery_object]
        rw [if_neg hno, if_neg hdl]
      rw [hproc]
      exact ⟨⟨fun h => absurd (Except.error.inj h) (fun hh => ProcError.noConfusion hh),
          fun h => absurd h hno⟩,
        ⟨fun _ => ⟨hno, hdl'⟩, fun _ => rfl⟩,
        ⟨fun ⟨r, h⟩ => Except.noConfusion h, fun h => absurd h.2 (by simp [hdl'])⟩,
        fun r h => Except.noConfusion h⟩

/-- C9 witness: an object with a primary image and a succeeding download
produces the record built from the data, with empty tags joined to the
empty string and `isPublicDomain` defaulted to `false`. -/
theorem process_pottery_object_spec_witness :
    process_pottery_object (fun _ _ => true) 1 [] { primaryImage := some (lit "u") } =
      Except.ok (build_record 1 [] { primaryImage := some (lit "u") }) ∧
    (build_record 1 [] { primaryImage := some (lit "u") }).tags = joinComma [] ∧
    (build_record 1 [] { primaryImage := some (lit "u") }).isPublicDomain = false := by
  have h := (process_pottery_object_spec (fun _ _ => true) 1 []
    { primaryImage := some (lit "u") }).2.2.2
    (build_record 1 [] { primaryImage := some (lit "u") }) rfl
  exact ⟨rfl, h.2.2.2.2.2.2.2.2.2.2.2.2.1, h.2.2.2.2.2.2.2.2.2.2.2.2.2.1⟩

end Met
